import Mathlib

/-
Verification of the emotion-music-generator repository.

This file gives a shallow embedding, in Lean 4, of the core data model and
operations of the repository (src/models/song.py, src/models/emotion.py,
src/models/playlist.py, src/models/user.py,
src/controllers/recommendation_engine.py, and the Song reconstruction in
main.py), and proves or refutes the frozen claims C1..C10 about them.

Modelling conventions:
- Python machine floats (song ratings, recommendation scores) are modelled
  exactly as rationals (ℚ); `int(x)` on a number is truncation toward zero;
  `round(x, 2)` is round-half-to-even at two decimals on the rational value.
- Python `str.lower` / `str.strip` are modelled on the ASCII range, which
  covers every string the program manipulates (tags, emotion names, tempos).
- Python lists are Lean lists; `list.pop`, slices and `sorted` keep their
  Python semantics (`l[:n]` with negative `n` drops the last `|n|` elements;
  `sorted`/`list.sort` is the stable sort by the given key, modelled by
  insertion sort, which computes the same list as any stable sort).
- Methods that mutate `self` become functions returning the new state;
  methods that raise return the unchanged state (the caller sees a rejected
  operation and the object is left as it was).
- `in`/`not in` on lists of objects uses Python object identity; lists of
  distinct objects are modelled as lists of structurally distinct values,
  so structural equality coincides with identity on them.
- Fields that no claim mentions (timestamps, ids of playlists, emotion
  descriptions, user e-mail) are omitted from the structures.
-/

namespace EMG

/-- Model of Python `str.lower` on one character (ASCII range). -/
def lowerChar (c : Char) : Char :=
  if 65 ≤ c.toNat ∧ c.toNat ≤ 90 then Char.ofNat (c.toNat + 32) else c

/-- Model of Python `str.lower`. -/
def pyLower (s : String) : String :=
  String.mk (s.data.map lowerChar)

/-- Whitespace as recognised by Python `str.strip`. -/
def pySpace (c : Char) : Bool :=
  c == ' ' || c == '\t' || c == '\n' || c == '\r' || c == '\x0b' || c == '\x0c'

/-- Model of Python `str.strip`: drop leading and trailing whitespace. -/
def pyStrip (s : String) : String :=
  String.mk (((s.data.dropWhile pySpace).reverse.dropWhile pySpace).reverse)

/-- Truncation toward zero of a rational: Python `int(x)` on a number. -/
def ratTrunc (q : ℚ) : ℤ :=
  q.num.tdiv q.den

/-- Round half to even to an integer: the rounding of Python `round`. -/
def roundHalfEven (q : ℚ) : ℤ :=
  let f := ⌊q⌋
  let r := q - f
  if r < 1 / 2 then f
  else if 1 / 2 < r then f + 1
  else if Even f then f else f + 1

/-- Python `round(x, 2)` on the exact rational value. -/
def pyRound2 (q : ℚ) : ℚ :=
  (roundHalfEven (q * 100) : ℚ) / 100

/-- Value of a decimal digit character, if it is one. -/
def digitVal (c : Char) : Option ℕ :=
  if 48 ≤ c.toNat ∧ c.toNat ≤ 57 then some (c.toNat - 48) else none

/-- Read a non-empty all-digit character list as a natural number. -/
def digitsToNat : List Char → Option ℕ
  | [] => none
  | cs => cs.foldl (fun acc c => match acc, digitVal c with
      | some n, some d => some (n * 10 + d)
      | _, _ => none) (some 0)

/-- Model of Python `int(s)` on a string: surrounding whitespace and one
optional sign are allowed around a non-empty digit run; anything else
raises (returns `none`). -/
def pyStrToInt (s : String) : Option ℤ :=
  match (pyStrip s).data with
  | [] => none
  | '+' :: cs => (digitsToNat cs).map (fun n => (n : ℤ))
  | '-' :: cs => (digitsToNat cs).map (fun n => -(n : ℤ))
  | cs => (digitsToNat cs).map (fun n => (n : ℤ))

/-- A Python value passed to `Emotion._validate_intensity`: an `int`, a
`float` (modelled exactly as a rational), a string, or `None`. -/
inductive PyVal where
  | vint : ℤ → PyVal
  | vfloat : ℚ → PyVal
  | vstr : String → PyVal
  | vnone : PyVal
deriving DecidableEq, Repr

/-- Python `int(x)`: identity on ints, truncation toward zero on floats,
digit parsing on strings, a `TypeError` (`none`) on `None`. -/
def pyToInt : PyVal → Option ℤ
  | .vint n => some n
  | .vfloat q => some (ratTrunc q)
  | .vstr s => pyStrToInt s
  | .vnone => none

/-- `Emotion._validate_intensity` (src/models/emotion.py): convert with
`int(...)`, keep the result if it lies in `[1, 10]`, otherwise (including
any conversion error) return 5. -/
def validateIntensity (v : PyVal) : ℤ :=
  match pyToInt v with
  | some n => if 1 ≤ n ∧ n ≤ 10 then n else 5
  | none => 5

/-- The mood record of src/models/emotion.py: emotion type (stored
lower-cased) and intensity. Id, timestamp and description are omitted. -/
structure Emotion where
  emotion_type : String
  intensity : ℤ
deriving DecidableEq, Repr

/-- `Emotion.__init__`: lower-case the type, validate the intensity. -/
def Emotion.init (emotion_type : String) (intensity : PyVal) : Emotion :=
  ⟨pyLower emotion_type, validateIntensity intensity⟩

/-- `Emotion.set_intensity`: re-validate and store. -/
def Emotion.set_intensity (e : Emotion) (v : PyVal) : Emotion :=
  { e with intensity := validateIntensity v }

/-- The fixed synonym table of `Emotion.matches_mood_tag`
(src/models/emotion.py lines 135-144). -/
def synonyms : List (String × List String) :=
  [("happy", ["joyful", "cheerful", "upbeat", "positive"]),
   ("sad", ["melancholic", "emotional", "heartbreak", "lonely", "grief"]),
   ("calm", ["relaxed", "peaceful", "meditation", "sleep", "focus"]),
   ("energetic", ["motivated", "active", "workout", "exercise", "pump"]),
   ("stressed", ["anxious", "tense", "worried"]),
   ("tired", ["exhausted", "sleepy", "drowsy"]),
   ("angry", ["frustrated", "irritated", "mad"]),
   ("bored", ["uninterested", "dull"])]

/-- First value bound to a key in an association list (Python dict lookup). -/
def assocFind {α : Type} (l : List (String × α)) (k : String) : Option α :=
  match l with
  | [] => none
  | (k', v) :: rest => if k' = k then some v else assocFind rest k

/-- `Emotion.matches_mood_tag` (src/models/emotion.py): direct equality, or
tag listed under the emotion in the synonym table, or emotion listed under
the tag. -/
def Emotion.matches_mood_tag (e : Emotion) (tag : String) : Bool :=
  let tag := pyLower tag
  let emo := pyLower e.emotion_type
  if tag = emo then true
  else
    let fwd := match assocFind synonyms emo with
      | some vs => tag ∈ vs
      | none => false
    let bwd := synonyms.any (fun kv => tag = kv.1 && decide (emo ∈ kv.2))
    fwd || bwd

/-- The track record of src/models/song.py. -/
structure Song where
  song_id : String
  title : String
  artist : String
  file_path : String
  mood_tags : List String
  tempo : String
  genre : String
  duration : ℤ
  play_count : ℤ
  rating : ℚ
deriving DecidableEq, Repr

/-- `Song.__init__`: stores the given fields verbatim (`mood_tags if
mood_tags else []` is written out literally), play count 0, rating 0.0. -/
def Song.init (song_id title artist file_path : String) (mood_tags : List String)
    (tempo genre : String) (duration : ℤ) : Song :=
  ⟨song_id, title, artist, file_path,
   if mood_tags = [] then [] else mood_tags,
   tempo, genre, duration, 0, 0⟩

/-- `Song.add_mood_tag`: lower-case and strip the tag, then append it if it
is non-empty and not already present. -/
def Song.add_mood_tag (s : Song) (tag : String) : Song :=
  let t := pyStrip (pyLower tag)
  if t ≠ "" ∧ t ∉ s.mood_tags then { s with mood_tags := s.mood_tags ++ [t] } else s

/-- `Song.set_rating`: accepted only in `[0, 5]`, otherwise rejected. -/
def Song.set_rating (s : Song) (r : ℚ) : Song :=
  if 0 ≤ r ∧ r ≤ 5 then { s with rating := r } else s

/-- `Song.increment_play_count`. -/
def Song.increment_play_count (s : Song) : Song :=
  { s with play_count := s.play_count + 1 }

/-- `Song.matches_emotion`: the lower-cased emotion type is literally among
the stored mood tags (no synonym lookup happens here). -/
def Song.matches_emotion (s : Song) (e : Emotion) : Bool :=
  decide (pyLower e.emotion_type ∈ s.mood_tags)

/-- `Song.calculate_match_score` (src/models/song.py lines 195-225). -/
def Song.calculate_match_score (s : Song) (e : Emotion) : ℤ :=
  let emotion_type := pyLower e.emotion_type
  let intensity := e.intensity
  let base : ℤ := if emotion_type ∈ s.mood_tags then 50 else 0
  let tempo_bonus : ℤ :=
    if 7 ≤ intensity ∧ s.tempo = "fast" then 20
    else if 4 ≤ intensity ∧ intensity ≤ 6 ∧ s.tempo = "medium" then 20
    else if intensity ≤ 3 ∧ s.tempo = "slow" then 20
    else 0
  min (base + tempo_bonus + ratTrunc (s.rating * 6)) 100

/-- The dictionary produced by `Song.to_dict`, with its ten stable keys. -/
structure SongDict where
  song_id : String
  title : String
  artist : String
  file_path : String
  mood_tags : List String
  tempo : String
  genre : String
  duration : ℤ
  play_count : ℤ
  rating : ℚ
deriving DecidableEq, Repr

/-- `Song.to_dict`. -/
def Song.to_dict (s : Song) : SongDict :=
  ⟨s.song_id, s.title, s.artist, s.file_path, s.mood_tags, s.tempo, s.genre,
   s.duration, s.play_count, s.rating⟩

/-- Reconstruction of a Song from a stored dictionary, as done by the
loader in main.py (`load_songs_from_json`): only the eight constructor
fields are passed to `Song.__init__`. -/
def songFromDict (d : SongDict) : Song :=
  Song.init d.song_id d.title d.artist d.file_path d.mood_tags d.tempo d.genre d.duration

/-- The playlist of src/models/playlist.py: the ordered song list and the
playback cursor. Id, name, originating emotion and creation time are
omitted (no claim mentions them). -/
structure Playlist where
  songs : List Song
  current_index : ℤ
deriving DecidableEq, Repr

/-- `Playlist.__init__`: empty list, cursor 0. -/
def Playlist.empty : Playlist :=
  ⟨[], 0⟩

/-- `Playlist.get_current_song`: the song under the cursor when the cursor
is in bounds, else `None`. -/
def Playlist.get_current_song (p : Playlist) : Option Song :=
  if 0 ≤ p.current_index ∧ p.current_index < (p.songs.length : ℤ) then
    p.songs.get? p.current_index.toNat
  else none

/-- `Playlist.add_song`: append unless already present (identity test). -/
def Playlist.add_song (p : Playlist) (song : Song) : Playlist :=
  if song ∈ p.songs then p else { p with songs := p.songs ++ [song] }

/-- `Playlist.add_songs`: add each in order. -/
def Playlist.add_songs (p : Playlist) (l : List Song) : Playlist :=
  l.foldl Playlist.add_song p

/-- Cursor adjustment shared by both removal methods: if the cursor now
lies past the end and the list is non-empty, clamp it to the last index. -/
def clampAfterRemoval (songs : List Song) (idx : ℤ) : ℤ :=
  if (songs.length : ℤ) ≤ idx ∧ songs ≠ [] then (songs.length : ℤ) - 1 else idx

/-- `Playlist.remove_song`: pop the first song with the given id, then
clamp the cursor; no match leaves the playlist unchanged. -/
def Playlist.remove_song (p : Playlist) (song_id : String) : Playlist :=
  match p.songs.findIdx? (fun s => s.song_id = song_id) with
  | none => p
  | some i =>
      let songs := p.songs.eraseIdx i
      ⟨songs, clampAfterRemoval songs p.current_index⟩

/-- `Playlist.remove_song_at_index`: remove at an in-range index, then
clamp the cursor; an out-of-range index is rejected. -/
def Playlist.remove_song_at_index (p : Playlist) (i : ℤ) : Playlist :=
  if 0 ≤ i ∧ i < (p.songs.length : ℤ) then
    let songs := p.songs.eraseIdx i.toNat
    ⟨songs, clampAfterRemoval songs p.current_index⟩
  else p

/-- `Playlist.clear`. -/
def Playlist.clear (_p : Playlist) : Playlist :=
  ⟨[], 0⟩

/-- `Playlist.next_song`: advance and return the new current song when not
on the last index, else return `None` and stay. -/
def Playlist.next_song (p : Playlist) : Option Song × Playlist :=
  if p.current_index < (p.songs.length : ℤ) - 1 then
    let p' : Playlist := { p with current_index := p.current_index + 1 }
    (p'.get_current_song, p')
  else (none, p)

/-- `Playlist.previous_song`: step back and return the new current song
when not on index 0, else return `None` and stay. -/
def Playlist.previous_song (p : Playlist) : Option Song × Playlist :=
  if 0 < p.current_index then
    let p' : Playlist := { p with current_index := p.current_index - 1 }
    (p'.get_current_song, p')
  else (none, p)

/-- `Playlist.reset_position`. -/
def Playlist.reset_position (p : Playlist) : Playlist :=
  { p with current_index := 0 }

/-- `Playlist.set_current_index`: accept an index in `[0, length)`,
reject (leave unchanged) anything else. -/
def Playlist.set_current_index (p : Playlist) (i : ℤ) : Playlist :=
  if 0 ≤ i ∧ i < (p.songs.length : ℤ) then { p with current_index := i } else p

/-- `Playlist.shuffle`: when non-empty, replace the song list with the
permutation produced by `random.shuffle` (passed in explicitly) and reset
the cursor; an empty playlist is left unchanged. -/
def Playlist.shuffle (p : Playlist) (shuffled : List Song) : Playlist :=
  if p.songs ≠ [] then ⟨shuffled, 0⟩ else p

/-- `Playlist.sort_by_title`: stable sort by title, cursor to 0. -/
def Playlist.sort_by_title (p : Playlist) : Playlist :=
  ⟨p.songs.insertionSort (fun a b => a.title ≤ b.title), 0⟩

/-- `Playlist.sort_by_artist`. -/
def Playlist.sort_by_artist (p : Playlist) : Playlist :=
  ⟨p.songs.insertionSort (fun a b => a.artist ≤ b.artist), 0⟩

/-- `Playlist.sort_by_rating` with its `reverse` flag (default True). -/
def Playlist.sort_by_rating (p : Playlist) (reverse : Bool) : Playlist :=
  ⟨p.songs.insertionSort
      (fun a b => if reverse then b.rating ≤ a.rating else a.rating ≤ b.rating), 0⟩

/-- `Playlist.sort_by_duration`. -/
def Playlist.sort_by_duration (p : Playlist) : Playlist :=
  ⟨p.songs.insertionSort (fun a b => a.duration ≤ b.duration), 0⟩

/-- The listener profile of src/models/user.py, restricted to the fields
the claims touch: preferences and the mood history (with the four
listening-hour buckets stored as separate counters). -/
structure MoodRecord where
  emotion_type : String
  intensity : ℤ
  time_of_day : String
deriving DecidableEq, Repr

/-- A user (listener profile). -/
structure User where
  user_id : String
  username : String
  favorite_genres : List String
  preferred_tempo : String
  hours_morning : ℕ
  hours_afternoon : ℕ
  hours_evening : ℕ
  hours_night : ℕ
  mood_history : List MoodRecord
deriving DecidableEq, Repr

/-- The `listening_hours` dict as the ordered item list Python iterates:
insertion order morning, afternoon, evening, night. -/
def listeningItems (u : User) : List (String × ℕ) :=
  [("morning", u.hours_morning), ("afternoon", u.hours_afternoon),
   ("evening", u.hours_evening), ("night", u.hours_night)]

/-- Python `max(l, key)` on a non-empty list: scan left to right, replace
the best only on a strictly larger key, so the first maximum wins. -/
def pyMaxBy {α : Type} (key : α → ℕ) : List α → Option α
  | [] => none
  | x :: rest => some (rest.foldl (fun best y => if key best < key y then y else best) x)

/-- `User._get_favorite_listening_time`: "unknown" when all four bucket
counts are zero, else the first bucket with the maximal count. -/
def getFavoriteListeningTime (u : User) : String :=
  if u.hours_morning + u.hours_afternoon + u.hours_evening + u.hours_night = 0 then
    "unknown"
  else
    match pyMaxBy Prod.snd (listeningItems u) with
    | some p => p.1
    | none => "unknown"

/-- One step of building `emotion_counts`: `counts[e] = counts.get(e, 0) + 1`
on a Python dict, i.e. bump in place or append a new key at the end. -/
def bump (counts : List (String × ℕ)) (e : String) : List (String × ℕ) :=
  match counts with
  | [] => [(e, 1)]
  | (k, v) :: rest => if k = e then (k, v + 1) :: rest else (k, v) :: bump rest e

/-- The emotion-count dict after iterating the whole history. -/
def countEmotions (l : List String) : List (String × ℕ) :=
  l.foldl bump []

/-- The record returned by `User.get_mood_statistics`. A key that the
empty-history branch does not emit is modelled as `none`. -/
structure MoodStats where
  total_records : ℕ
  most_common_mood : Option String
  most_common_count : Option ℕ
  average_intensity : ℚ
  mood_distribution : List (String × ℕ)
  favorite_time : Option String
deriving DecidableEq, Repr

/-- `User.get_mood_statistics` (src/models/user.py lines 245-279). The
`pyMaxBy _ = none` branch is unreachable: the count dict is non-empty
whenever the history is. -/
def getMoodStatistics (u : User) : MoodStats :=
  if u.mood_history = [] then ⟨0, none, none, 0, [], none⟩
  else
    let emotion_counts := countEmotions (u.mood_history.map MoodRecord.emotion_type)
    let total_intensity : ℤ := u.mood_history.foldl (fun t r => t + r.intensity) 0
    let avg := pyRound2 ((total_intensity : ℚ) / (u.mood_history.length : ℚ))
    match pyMaxBy Prod.snd emotion_counts with
    | some mc =>
        ⟨u.mood_history.length, some mc.1, some mc.2, avg, emotion_counts,
         some (getFavoriteListeningTime u)⟩
    | none =>
        ⟨u.mood_history.length, none, none, avg, emotion_counts,
         some (getFavoriteListeningTime u)⟩

/-- `RecommendationEngine._filter_by_mood`: keep the songs for which
`Song.matches_emotion` holds. -/
def filterByMood (e : Emotion) (songs : List Song) : List Song :=
  songs.filter (fun s => s.matches_emotion e)

/-- `RecommendationEngine._sort_by_score`: Python `sorted(songs, key=score,
reverse=True)`, the stable descending sort by match score. -/
def sortByScore (songs : List Song) (e : Emotion) : List Song :=
  songs.insertionSort (fun a b => b.calculate_match_score e ≤ a.calculate_match_score e)

/-- Python slice `l[:n]`: the first `n` elements when `n ≥ 0`, everything
but the last `|n|` elements when `n < 0`. -/
def pySliceTo {α : Type} (n : ℤ) (l : List α) : List α :=
  if 0 ≤ n then l.take n.toNat else l.take (l.length - n.natAbs)

/-- `RuleBasedRecommender.recommend_for_emotion`: filter by mood (falling
back to the whole catalog when nothing matches), sort by score, take the
first `count`, and put the result into a fresh playlist. -/
def ruleBasedRecommend (db : List Song) (e : Emotion) (count : ℤ) : Playlist :=
  let matching := filterByMood e db
  let matching := if matching = [] then db else matching
  let sorted := sortByScore matching e
  let selected := pySliceTo count sorted
  Playlist.empty.add_songs selected

/-- `SmartRecommender._calculate_advanced_score`: base match score plus
favorite-genre (+15), preferred-tempo (+10) and rating (`rating * 5`)
bonuses, minus the always-zero recent-plays penalty, clamped to [0, 100]. -/
def calculateAdvancedScore (s : Song) (e : Emotion) (u : User) : ℚ :=
  let base : ℚ := (s.calculate_match_score e : ℚ)
  let genre_bonus : ℚ := if s.genre ∈ u.favorite_genres then 15 else 0
  let tempo_bonus : ℚ := if s.tempo = u.preferred_tempo then 10 else 0
  let rating_bonus : ℚ := s.rating * 5
  let recent_penalty : ℚ := 0
  max 0 (min 100 (base + genre_bonus + tempo_bonus + rating_bonus - recent_penalty))

/-- First pass of `SmartRecommender._select_with_diversity`: walk the
scored list, stop once `count` songs are selected, accept a song when its
genre is unused or at least three distinct genres are already in use. -/
def diversityFirstPass : List (Song × ℚ) → ℤ → List Song → List String → List Song
  | [], _, selected, _ => selected
  | (song, _) :: rest, count, selected, genres_used =>
      if count ≤ (selected.length : ℤ) then selected
      else if song.genre ∉ genres_used ∨ 3 ≤ genres_used.length then
        diversityFirstPass rest count (selected ++ [song])
          (if song.genre ∈ genres_used then genres_used else genres_used ++ [song.genre])
      else diversityFirstPass rest count selected genres_used

/-- Second pass: fill the remaining slots with the best not-yet-selected
songs, stopping exactly when `count` is reached. -/
def diversitySecondPass : List (Song × ℚ) → ℤ → List Song → List Song
  | [], _, selected => selected
  | (song, _) :: rest, count, selected =>
      if song ∈ selected then diversitySecondPass rest count selected
      else
        let selected := selected ++ [song]
        if count ≤ (selected.length : ℤ) then selected
        else diversitySecondPass rest count selected

/-- `SmartRecommender._select_with_diversity`. -/
def selectWithDiversity (scored : List (Song × ℚ)) (count : ℤ) : List Song :=
  let selected := diversityFirstPass scored count [] []
  if (selected.length : ℤ) < count then diversitySecondPass scored count selected
  else selected

/-- `SmartRecommender.recommend_for_emotion`: filter with fallback, score
with the advanced score, sort descending (stably), select with the
diversity constraint, and wrap into a fresh playlist. -/
def smartRecommend (db : List Song) (e : Emotion) (u : User) (count : ℤ) : Playlist :=
  let matching := filterByMood e db
  let matching := if matching = [] then db else matching
  let scored := matching.map (fun s => (s, calculateAdvancedScore s e u))
  let sorted := scored.insertionSort (fun a b => b.2 ≤ a.2)
  let selected := selectWithDiversity sorted count
  Playlist.empty.add_songs selected

/-- Spec-side base score: 50 when the mood's emotion type is among the
track's mood tags, else 0. -/
def specBase (s : Song) (e : Emotion) : ℤ :=
  if pyLower e.emotion_type ∈ s.mood_tags then 50 else 0

/-- Spec-side alignment condition: intensity ≥ 7 and fast tempo. -/
def alignedFast (s : Song) (e : Emotion) : Prop :=
  7 ≤ e.intensity ∧ s.tempo = "fast"

/-- Spec-side alignment condition: intensity in [4, 6] and medium tempo. -/
def alignedMedium (s : Song) (e : Emotion) : Prop :=
  4 ≤ e.intensity ∧ e.intensity ≤ 6 ∧ s.tempo = "medium"

/-- Spec-side alignment condition: intensity ≤ 3 and slow tempo. -/
def alignedSlow (s : Song) (e : Emotion) : Prop :=
  e.intensity ≤ 3 ∧ s.tempo = "slow"

instance (s : Song) (e : Emotion) : Decidable (alignedFast s e) := by
  unfold alignedFast; infer_instance

instance (s : Song) (e : Emotion) : Decidable (alignedMedium s e) := by
  unfold alignedMedium; infer_instance

instance (s : Song) (e : Emotion) : Decidable (alignedSlow s e) := by
  unfold alignedSlow; infer_instance

/-- Spec-side tempo bonus: 20 under one of the alignment conditions. -/
def specTempoBonus (s : Song) (e : Emotion) : ℤ :=
  if alignedFast s e ∨ alignedMedium s e ∨ alignedSlow s e then 20 else 0

/-- Spec-side first pass of the diversity selection, written from the
spec's words: iterate the scored list in order, stop at `count` accepted,
accept a track whose genre is not yet among the accepted tracks' genres or
once the accepted tracks already span at least three distinct genres. -/
def specDiversityPass : List (Song × ℚ) → ℤ → List Song → List Song
  | [], _, accepted => accepted
  | (song, _) :: rest, count, accepted =>
      if count ≤ (accepted.length : ℤ) then accepted
      else if song.genre ∉ accepted.map Song.genre ∨
          3 ≤ (accepted.map Song.genre).toFinset.card then
        specDiversityPass rest count (accepted ++ [song])
      else specDiversityPass rest count accepted

/-- Spec-side diversity selection: the first pass, then, when fewer than
`count` were accepted, the highest-scoring not-yet-selected tracks in
score order fill the remaining slots. -/
def specDiversitySelect (scored : List (Song × ℚ)) (count : ℤ) : List Song :=
  let accepted := specDiversityPass scored count []
  if (accepted.length : ℤ) < count then
    accepted ++
      ((scored.map Prod.fst).filter (fun s => s ∉ accepted)).take
        ((count - accepted.length).toNat)
  else accepted

/-- States of a Playlist reachable from a fresh `Playlist()` through the
public mutating operations. `shuffle` may produce any permutation of the
current song list. -/
inductive Reach : Playlist → Prop where
  | init : Reach Playlist.empty
  | add_song (p : Playlist) (s : Song) : Reach p → Reach (p.add_song s)
  | add_songs (p : Playlist) (l : List Song) : Reach p → Reach (p.add_songs l)
  | remove_song (p : Playlist) (sid : String) : Reach p → Reach (p.remove_song sid)
  | remove_song_at_index (p : Playlist) (i : ℤ) : Reach p → Reach (p.remove_song_at_index i)
  | clear (p : Playlist) : Reach p → Reach p.clear
  | next_song (p : Playlist) : Reach p → Reach p.next_song.2
  | previous_song (p : Playlist) : Reach p → Reach p.previous_song.2
  | reset_position (p : Playlist) : Reach p → Reach p.reset_position
  | set_current_index (p : Playlist) (i : ℤ) : Reach p → Reach (p.set_current_index i)
  | shuffle (p : Playlist) (l : List Song) : Reach p → l.Perm p.songs → Reach (p.shuffle l)
  | sort_by_title (p : Playlist) : Reach p → Reach p.sort_by_title
  | sort_by_artist (p : Playlist) : Reach p → Reach p.sort_by_artist
  | sort_by_rating (p : Playlist) (rev : Bool) : Reach p → Reach (p.sort_by_rating rev)
  | sort_by_duration (p : Playlist) : Reach p → Reach p.sort_by_duration

/-- The cursor invariant of the claim, strengthened so that it is
inductive: an empty playlist keeps cursor 0, a non-empty one keeps it in
`[0, length)`. -/
def CursorInv (p : Playlist) : Prop :=
  (p.songs = [] → p.current_index = 0) ∧
  (p.songs ≠ [] → 0 ≤ p.current_index ∧ p.current_index < (p.songs.length : ℤ))

/-- Concrete mood used by the closed theorems: `Emotion("e", "happy", 8)`. -/
def happyMood : Emotion :=
  Emotion.init "happy" (.vint 8)

/-- A track whose only mood tag is "joyful". -/
def joyfulSong : Song :=
  Song.init "s1" "Joyful Tune" "A" "assets/j.mp3" ["joyful"] "medium" "Pop" 180

/-- A track tagged "happy". -/
def happySongA : Song :=
  Song.init "a1" "Happy A" "AA" "a.mp3" ["happy"] "medium" "Pop" 100

/-- A second track tagged "happy". -/
def happySongB : Song :=
  Song.init "b1" "Happy B" "BB" "b.mp3" ["happy"] "medium" "Pop" 110

/-- The rational 10.9, the float fed to `Emotion._validate_intensity` in
the C7 counterexample. -/
def q109 : ℚ :=
  ⟨109, 10, by norm_num, by norm_num⟩

/-- Four tracks spanning four distinct genres, for the diversity claims. -/
def genreSong1 : Song :=
  Song.init "d1" "T1" "A1" "f1" ["happy"] "fast" "Pop" 100

/-- Second genre. -/
def genreSong2 : Song :=
  Song.init "d2" "T2" "A2" "f2" ["happy"] "fast" "Rock" 100

/-- Third genre. -/
def genreSong3 : Song :=
  Song.init "d3" "T3" "A3" "f3" ["happy"] "fast" "Jazz" 100

/-- Fourth genre. -/
def genreSong4 : Song :=
  Song.init "d4" "T4" "A4" "f4" ["happy"] "fast" "Ambient" 100

/-- A score-descending scored list over the four genres. -/
def scoredExample : List (Song × ℚ) :=
  [(genreSong1, 90), (genreSong2, 80), (genreSong3, 70), (genreSong4, 60)]

/-- A user with no mood history and no recorded listening hours. -/
def emptyUser : User :=
  ⟨"u1", "Anna", [], "medium", 0, 0, 0, 0, []⟩

/-- A user with three mood records (happy, sad, happy) and the listening
hours those records produced. -/
def statsUser : User :=
  ⟨"u2", "Bea", [], "medium", 2, 1, 0, 0,
   [⟨"happy", 8, "morning"⟩, ⟨"sad", 4, "morning"⟩, ⟨"happy", 6, "afternoon"⟩]⟩

/- ===================== helper lemmas ===================== -/

theorem toNat_ofNat_small (n : ℕ) (h : n < 55296) : (Char.ofNat n).toNat = n := by
  have hv : Nat.isValidChar n := Or.inl h
  simp only [Char.ofNat, hv, dif_pos, Char.ofNatAux, Char.toNat]
  rfl

theorem lowerChar_lowerChar (c : Char) : lowerChar (lowerChar c) = lowerChar c := by
  unfold lowerChar
  by_cases h : 65 ≤ c.toNat ∧ c.toNat ≤ 90
  · rw [if_pos h]
    have ht : (Char.ofNat (c.toNat + 32)).toNat = c.toNat + 32 :=
      toNat_ofNat_small _ (by omega)
    have hno : ¬(65 ≤ (Char.ofNat (c.toNat + 32)).toNat ∧
        (Char.ofNat (c.toNat + 32)).toNat ≤ 90) := by
      rw [ht]; omega
    rw [if_neg hno]
  · rw [if_neg h, if_neg h]

theorem mem_pyStrip {s : String} {c : Char} (h : c ∈ (pyStrip s).data) : c ∈ s.data := by
  unfold pyStrip at h
  rw [show (String.mk (((s.data.dropWhile pySpace).reverse.dropWhile pySpace).reverse)).data
      = ((s.data.dropWhile pySpace).reverse.dropWhile pySpace).reverse from rfl] at h
  rw [List.mem_reverse] at h
  have h2 := (List.dropWhile_sublist _).mem h
  rw [List.mem_reverse] at h2
  exact (List.dropWhile_sublist _).mem h2

theorem pyLower_pyStrip_pyLower (tag : String) :
    pyLower (pyStrip (pyLower tag)) = pyStrip (pyLower tag) := by
  show String.mk ((pyStrip (pyLower tag)).data.map lowerChar) = pyStrip (pyLower tag)
  have hfix : ∀ c ∈ (pyStrip (pyLower tag)).data, lowerChar c = c := by
    intro c hc
    have hmem : c ∈ (pyLower tag).data := mem_pyStrip hc
    rw [show (pyLower tag).data = tag.data.map lowerChar from rfl] at hmem
    obtain ⟨d, _, rfl⟩ := List.mem_map.mp hmem
    exact lowerChar_lowerChar d
  rw [List.map_congr_left hfix |>.trans (List.map_id _)]

theorem ratTrunc_eq_floor (q : ℚ) (h : 0 ≤ q) : ratTrunc q = ⌊q⌋ := by
  unfold ratTrunc
  rw [Rat.floor_def]
  rw [Int.tdiv_eq_ediv (Rat.num_nonneg.mpr h) (by positivity)]

theorem ratTrunc_nonneg (q : ℚ) (h : 0 ≤ q) : 0 ≤ ratTrunc q :=
  Int.tdiv_nonneg (Rat.num_nonneg.mpr h) (by positivity)

/- ===================== claim C8 ===================== -/

/-- C8 counterexample: the claim says the stored mood tags of every
constructed Song are lower-cased, but `Song.__init__` stores the argument
list verbatim: constructing with `["HAPPY"]` stores the upper-case tag. -/
theorem c8_counterexample :
    (Song.init "s" "t" "a" "f" ["HAPPY"] "fast" "Pop" 1).mood_tags = ["HAPPY"] ∧
    pyLower "HAPPY" ≠ "HAPPY" := by
  decide

/-- C8 as amended: `add_mood_tag` stores a lower-cased (and stripped) tag,
so a Song whose tags are all lower-cased keeps that property across every
`add_mood_tag` call; the constructor, however, stores its argument list
verbatim. -/
theorem c8_tags_lowercase (s : Song) (tag : String)
    (h : ∀ t ∈ s.mood_tags, pyLower t = t) :
    ∀ t ∈ (s.add_mood_tag tag).mood_tags, pyLower t = t := by
  intro t ht
  unfold Song.add_mood_tag at ht
  by_cases hc : pyStrip (pyLower tag) ≠ "" ∧ pyStrip (pyLower tag) ∉ s.mood_tags
  · simp only [if_pos hc] at ht
    rcases List.mem_append.mp ht with h1 | h2
    · exact h t h1
    · rw [List.mem_singleton.mp h2]
      exact pyLower_pyStrip_pyLower tag
  · simp only [if_neg hc] at ht
    exact h t ht

/-- C8 witness: adding the tag " HAPPY " to a lower-case-tagged Song
stores "happy", and every resulting tag is its own lower-casing. -/
theorem c8_tags_lowercase_witness :
    (joyfulSong.add_mood_tag " HAPPY ").mood_tags = ["joyful", "happy"] ∧
    pyLower "joyful" = "joyful" ∧ pyLower "happy" = "happy" := by
  have h := c8_tags_lowercase joyfulSong " HAPPY " (by decide)
  exact ⟨by decide, h "joyful" (by decide), h "happy" (by decide)⟩

/- ===================== claim C10 ===================== -/

/-- C10 counterexample: `to_dict` followed by the loader's reconstruction
does not preserve the play count (the constructor resets it to 0), so the
claimed round trip fails on a Song that has been played once. -/
theorem c10_counterexample :
    (songFromDict (happySongA.increment_play_count).to_dict).play_count = 0 ∧
    (happySongA.increment_play_count).play_count = 1 := by
  decide

/-- C10 as amended: the round trip preserves the eight constructor-visible
fields (id, title, artist, file path, mood tags, tempo, genre, duration),
while play count and rating are reset to 0 and 0.0 by the reconstruction. -/
theorem c10_roundtrip (s : Song) :
    (songFromDict s.to_dict).song_id = s.song_id ∧
    (songFromDict s.to_dict).title = s.title ∧
    (songFromDict s.to_dict).artist = s.artist ∧
    (songFromDict s.to_dict).file_path = s.file_path ∧
    (songFromDict s.to_dict).mood_tags = s.mood_tags ∧
    (songFromDict s.to_dict).tempo = s.tempo ∧
    (songFromDict s.to_dict).genre = s.genre ∧
    (songFromDict s.to_dict).duration = s.duration ∧
    (songFromDict s.to_dict).play_count = 0 ∧
    (songFromDict s.to_dict).rating = 0 := by
  unfold songFromDict Song.to_dict Song.init
  refine ⟨rfl, rfl, rfl, rfl, ?_, rfl, rfl, rfl, rfl, rfl⟩
  by_cases h : s.mood_tags = [] <;> simp [h]

/- ===================== claim C7 ===================== -/

/-- C7 counterexample: the float 10.9 is not a whole number in [1, 10]
(it is larger than 10), yet `_validate_intensity` truncates it to 10 and
keeps that, instead of defaulting to 5 as the claim states for every
invalid input. -/
theorem c7_counterexample :
    validateIntensity (.vfloat q109) = 10 ∧ (10 : ℚ) < q109 ∧
    (Emotion.init "happy" (.vfloat q109)).intensity ≠ 5 := by
  decide

/-- C7 as amended: construction and `set_intensity` always leave an
integer intensity in [1, 10]; an integer input in [1, 10] is kept, and
invalid input defaults to 5 — except that a numeric input whose
truncation toward zero lands in [1, 10] (such as 10.9) is kept as that
truncation rather than defaulting. -/
theorem c7_intensity (et : String) (v w : PyVal) :
    (1 ≤ (Emotion.init et v).intensity ∧ (Emotion.init et v).intensity ≤ 10) ∧
    (1 ≤ ((Emotion.init et v).set_intensity w).intensity ∧
      ((Emotion.init et v).set_intensity w).intensity ≤ 10) ∧
    (∀ n : ℤ, v = .vint n → 1 ≤ n → n ≤ 10 → (Emotion.init et v).intensity = n) ∧
    (∀ n : ℤ, v = .vint n → (n < 1 ∨ 10 < n) → (Emotion.init et v).intensity = 5) ∧
    (v = .vnone → (Emotion.init et v).intensity = 5) ∧
    (∀ s, v = .vstr s → pyStrToInt s = none → (Emotion.init et v).intensity = 5) ∧
    (∀ q : ℚ, v = .vfloat q → 1 ≤ ratTrunc q → ratTrunc q ≤ 10 →
      (Emotion.init et v).intensity = ratTrunc q) ∧
    (∀ q : ℚ, v = .vfloat q → (ratTrunc q < 1 ∨ 10 < ratTrunc q) →
      (Emotion.init et v).intensity = 5) ∧
    (∀ n : ℤ, w = .vint n → 1 ≤ n → n ≤ 10 →
      ((Emotion.init et v).set_intensity w).intensity = n) ∧
    (∀ n : ℤ, w = .vint n → (n < 1 ∨ 10 < n) →
      ((Emotion.init et v).set_intensity w).intensity = 5) := by
  have hb : ∀ u : PyVal, 1 ≤ validateIntensity u ∧ validateIntensity u ≤ 10 := by
    intro u
    unfold validateIntensity
    cases h : pyToInt u with
    | none => simp
    | some n => simp only []; split_ifs with h2 <;> omega
  refine ⟨hb v, hb w, ?_, ?_, ?_, ?_, ?_, ?_, ?_, ?_⟩
  · rintro n rfl h1 h2
    simp [Emotion.init, validateIntensity, pyToInt, h1, h2]
  · rintro n rfl h1
    have : ¬(1 ≤ n ∧ n ≤ 10) := by omega
    simp [Emotion.init, validateIntensity, pyToInt, this]
  · rintro rfl
    simp [Emotion.init, validateIntensity, pyToInt]
  · rintro s rfl hs
    simp [Emotion.init, validateIntensity, pyToInt, hs]
  · rintro q rfl h1 h2
    simp [Emotion.init, validateIntensity, pyToInt, h1, h2]
  · rintro q rfl h1
    have : ¬(1 ≤ ratTrunc q ∧ ratTrunc q ≤ 10) := by omega
    simp [Emotion.init, validateIntensity, pyToInt, this]
  · rintro n rfl h1 h2
    simp [Emotion.set_intensity, validateIntensity, pyToInt, h1, h2]
  · rintro n rfl h1
    have : ¬(1 ≤ n ∧ n ≤ 10) := by omega
    simp [Emotion.set_intensity, validateIntensity, pyToInt, this]

/-- C7 witness: intensity 7 is kept at construction, and a later
`set_intensity(99)` falls back to 5; both lie in [1, 10]. -/
theorem c7_intensity_witness :
    (Emotion.init "Happy" (.vint 7)).intensity = 7 ∧
    ((Emotion.init "Happy" (.vint 7)).set_intensity (.vint 99)).intensity = 5 ∧
    1 ≤ (Emotion.init "Happy" (.vint 7)).intensity := by
  have h := c7_intensity "Happy" (.vint 7) (.vint 99)
  refine ⟨h.2.2.1 7 rfl (by norm_num) (by norm_num), ?_, h.1.1⟩
  exact h.2.2.2.2.2.2.2.2.2 99 rfl (by norm_num)

/- ===================== claim C1 ===================== -/

/-- C1 counterexample: the filter step keeps only tracks whose stored tag
list literally contains the emotion type; the synonym table (which does
relate "happy" and "joyful") lives in `Emotion.matches_mood_tag` and is
never consulted by the filter, so the catalog whose only track is tagged
"joyful" filters to the empty list under a "happy" mood. -/
theorem c1_counterexample :
    filterByMood happyMood [joyfulSong] = [] ∧
    happyMood.matches_mood_tag "joyful" = true := by
  decide

/-- C1 as amended: the shared filter step keeps exactly the tracks whose
stored mood-tag list contains the lower-cased emotion type directly — no
synonym lookup, tags compared as stored; a track tagged only "joyful"
under a "happy" mood reaches the playlist only through the empty-filter
fallback to the whole catalog. -/
theorem c1_filter_direct_only (e : Emotion) (songs : List Song) :
    (∀ s : Song, s ∈ filterByMood e songs ↔
      s ∈ songs ∧ pyLower e.emotion_type ∈ s.mood_tags) ∧
    (ruleBasedRecommend [joyfulSong] happyMood 10).songs = [joyfulSong] := by
  constructor
  · intro s
    unfold filterByMood Song.matches_emotion
    rw [List.mem_filter]
    simp
  · decide

/- ===================== claim C2 ===================== -/

/-- C2: the match score equals `min(100, base + tempo_bonus +
floor(rating * 6))` with base 50 exactly on a tag match and tempo bonus 20
under exactly one of the three (mutually exclusive) intensity/tempo
alignment conditions; for ratings in [0, 5] the score lies in [0, 100]. -/
theorem c2_score_formula (s : Song) (e : Emotion) :
    (0 ≤ s.rating →
      s.calculate_match_score e =
        min 100 (specBase s e + specTempoBonus s e + ⌊s.rating * 6⌋)) ∧
    (¬(alignedFast s e ∧ alignedMedium s e) ∧
     ¬(alignedFast s e ∧ alignedSlow s e) ∧
     ¬(alignedMedium s e ∧ alignedSlow s e)) ∧
    (0 ≤ s.rating → s.rating ≤ 5 →
      0 ≤ s.calculate_match_score e ∧ s.calculate_match_score e ≤ 100) := by
  have hbonus :
      (if 7 ≤ e.intensity ∧ s.tempo = "fast" then (20 : ℤ)
       else if 4 ≤ e.intensity ∧ e.intensity ≤ 6 ∧ s.tempo = "medium" then 20
       else if e.intensity ≤ 3 ∧ s.tempo = "slow" then 20
       else 0) = specTempoBonus s e := by
    unfold specTempoBonus alignedFast alignedMedium alignedSlow
    split_ifs <;> tauto
  have hbonus_nonneg : 0 ≤ specTempoBonus s e := by
    unfold specTempoBonus; split_ifs <;> omega
  have hbase_nonneg : 0 ≤ specBase s e := by
    unfold specBase; split_ifs <;> omega
  refine ⟨?_, ?_, ?_⟩
  · intro hr
    unfold Song.calculate_match_score
    dsimp only
    rw [ratTrunc_eq_floor _ (by positivity), hbonus]
    show min (specBase s e + specTempoBonus s e + ⌊s.rating * 6⌋) 100 = _
    rw [min_comm]
  · unfold alignedFast alignedMedium alignedSlow
    refine ⟨?_, ?_, ?_⟩ <;> rintro ⟨h1, h2⟩ <;> omega
  · intro hr _
    unfold Song.calculate_match_score
    dsimp only
    rw [hbonus]
    constructor
    · have hf : 0 ≤ ratTrunc (s.rating * 6) := ratTrunc_nonneg _ (by positivity)
      have : (0 : ℤ) ≤ specBase s e + specTempoBonus s e + ratTrunc (s.rating * 6) := by
        omega
      exact le_min this (by norm_num)
    · exact min_le_right _ _

/-- C2 witness: a track tagged "happy" with medium tempo and rating 0
against a happy mood of intensity 8 scores exactly 50, inside [0, 100]. -/
theorem c2_score_formula_witness :
    happySongA.calculate_match_score happyMood = 50 ∧
    0 ≤ happySongA.calculate_match_score happyMood ∧
    happySongA.calculate_match_score happyMood ≤ 100 := by
  have h := c2_score_formula happySongA happyMood
  have hr : (0 : ℚ) ≤ happySongA.rating := le_of_eq rfl
  have h5 : happySongA.rating ≤ 5 := by
    show (0 : ℚ) ≤ 5
    norm_num
  have heq := h.1 hr
  have hbase : specBase happySongA happyMood = 50 := by decide
  have hbonus : specTempoBonus happySongA happyMood = 0 := by
    unfold specTempoBonus
    rw [if_neg (by decide)]
  have hfloor : ⌊happySongA.rating * 6⌋ = 0 := by
    show ⌊(0 : ℚ) * 6⌋ = 0
    norm_num
  rw [hbase, hbonus, hfloor] at heq
  norm_num at heq
  exact ⟨heq, (h.2.2 hr h5).1, (h.2.2 hr h5).2⟩

/- ===================== claim C5 helper lemmas ===================== -/

theorem inv_empty : CursorInv Playlist.empty := by
  constructor <;> intro h <;> simp [Playlist.empty] at h ⊢

theorem inv_add_song (p : Playlist) (s : Song) (h : CursorInv p) :
    CursorInv (p.add_song s) := by
  obtain ⟨h0, h1⟩ := h
  unfold Playlist.add_song
  by_cases hm : s ∈ p.songs
  · rw [if_pos hm]; exact ⟨h0, h1⟩
  · rw [if_neg hm]
    constructor
    · intro hemp
      simp at hemp
    · intro _
      show 0 ≤ p.current_index ∧ p.current_index < ((p.songs ++ [s]).length : ℤ)
      rw [List.length_append, List.length_singleton]
      by_cases he : p.songs = []
      · have hz := h0 he
        rw [hz, he]
        norm_num
      · have := h1 he
        push_cast
        omega

theorem inv_add_songs (p : Playlist) (l : List Song) (h : CursorInv p) :
    CursorInv (p.add_songs l) := by
  unfold Playlist.add_songs
  induction l generalizing p with
  | nil => exact h
  | cons a t ih => exact ih (p.add_song a) (inv_add_song p a h)

theorem inv_eraseIdx (p : Playlist) (i : ℕ) (h : CursorInv p) :
    CursorInv ⟨p.songs.eraseIdx i, clampAfterRemoval (p.songs.eraseIdx i) p.current_index⟩ := by
  obtain ⟨h0, h1⟩ := h
  have hlen := List.length_eraseIdx p.songs i
  constructor
  · show p.songs.eraseIdx i = [] →
      clampAfterRemoval (p.songs.eraseIdx i) p.current_index = 0
    intro hemp
    unfold clampAfterRemoval
    rw [if_neg (by simp [hemp])]
    by_cases he : p.songs = []
    · exact h0 he
    · have hb := h1 he
      have hp : p.songs.length ≠ 0 := by
        intro hc; exact he (List.length_eq_zero.mp hc)
      rw [hemp] at hlen
      simp only [List.length_nil] at hlen
      split_ifs at hlen <;> omega
  · show p.songs.eraseIdx i ≠ [] →
      0 ≤ clampAfterRemoval (p.songs.eraseIdx i) p.current_index ∧
      clampAfterRemoval (p.songs.eraseIdx i) p.current_index <
        ((p.songs.eraseIdx i).length : ℤ)
    intro hemp
    have hpos : 0 < (p.songs.eraseIdx i).length := List.length_pos.mpr hemp
    have hne : p.songs ≠ [] := by
      intro hc
      rw [hc] at hemp
      exact hemp rfl
    have hb := h1 hne
    unfold clampAfterRemoval
    by_cases hcl : ((p.songs.eraseIdx i).length : ℤ) ≤ p.current_index ∧
        p.songs.eraseIdx i ≠ []
    · rw [if_pos hcl]
      omega
    · rw [if_neg hcl]
      have hni : ¬((p.songs.eraseIdx i).length : ℤ) ≤ p.current_index := by
        intro hc; exact hcl ⟨hc, hemp⟩
      omega

theorem inv_remove_song (p : Playlist) (sid : String) (h : CursorInv p) :
    CursorInv (p.remove_song sid) := by
  unfold Playlist.remove_song
  cases hf : p.songs.findIdx? (fun s => s.song_id = sid) with
  | none => exact h
  | some i => exact inv_eraseIdx p i h

theorem inv_remove_song_at_index (p : Playlist) (i : ℤ) (h : CursorInv p) :
    CursorInv (p.remove_song_at_index i) := by
  unfold Playlist.remove_song_at_index
  by_cases hg : 0 ≤ i ∧ i < (p.songs.length : ℤ)
  · rw [if_pos hg]; exact inv_eraseIdx p i.toNat h
  · rw [if_neg hg]; exact h

theorem inv_clear (p : Playlist) : CursorInv p.clear := by
  constructor <;> intro h <;> simp [Playlist.clear] at h ⊢

theorem inv_next_song (p : Playlist) (h : CursorInv p) : CursorInv p.next_song.2 := by
  obtain ⟨h0, h1⟩ := h
  unfold Playlist.next_song
  by_cases hg : p.current_index < (p.songs.length : ℤ) - 1
  · rw [if_pos hg]
    dsimp only
    constructor
    · show p.songs = [] → p.current_index + 1 = 0
      intro hemp
      rw [hemp] at hg
      have := h0 hemp
      simp at hg
      omega
    · show p.songs ≠ [] →
        0 ≤ p.current_index + 1 ∧ p.current_index + 1 < (p.songs.length : ℤ)
      intro hne
      have := h1 hne
      omega
  · rw [if_neg hg]
    exact ⟨h0, h1⟩

theorem inv_previous_song (p : Playlist) (h : CursorInv p) : CursorInv p.previous_song.2 := by
  obtain ⟨h0, h1⟩ := h
  unfold Playlist.previous_song
  by_cases hg : 0 < p.current_index
  · rw [if_pos hg]
    dsimp only
    constructor
    · show p.songs = [] → p.current_index - 1 = 0
      intro hemp
      have := h0 hemp
      omega
    · show p.songs ≠ [] →
        0 ≤ p.current_index - 1 ∧ p.current_index - 1 < (p.songs.length : ℤ)
      intro hne
      have := h1 hne
      omega
  · rw [if_neg hg]
    exact ⟨h0, h1⟩

theorem inv_reset_position (p : Playlist) (h : CursorInv p) : CursorInv p.reset_position := by
  refine ⟨fun _ => rfl, fun hne => ?_⟩
  have : 0 < p.songs.length := List.length_pos.mpr hne
  show (0 : ℤ) ≤ 0 ∧ (0 : ℤ) < (p.songs.length : ℤ)
  omega

theorem inv_set_current_index (p : Playlist) (i : ℤ) (h : CursorInv p) :
    CursorInv (p.set_current_index i) := by
  obtain ⟨h0, h1⟩ := h
  unfold Playlist.set_current_index
  by_cases hg : 0 ≤ i ∧ i < (p.songs.length : ℤ)
  · rw [if_pos hg]
    refine ⟨fun hemp => ?_, fun _ => hg⟩
    rw [hemp] at hg
    simp at hg
    omega
  · rw [if_neg hg]
    exact ⟨h0, h1⟩

theorem inv_shuffle (p : Playlist) (l : List Song) (h : CursorInv p) (hp : l.Perm p.songs) :
    CursorInv (p.shuffle l) := by
  unfold Playlist.shuffle
  by_cases hg : p.songs ≠ []
  · rw [if_pos hg]
    refine ⟨fun _ => rfl, fun hne => ?_⟩
    have : 0 < l.length := List.length_pos.mpr hne
    show (0 : ℤ) ≤ 0 ∧ (0 : ℤ) < (l.length : ℤ)
    omega
  · rw [if_neg hg]
    exact h

theorem inv_sorted (songs : List Song) (r : Song → Song → Prop) [DecidableRel r]
    (hlen : (songs.insertionSort r).length = songs.length) :
    CursorInv ⟨songs.insertionSort r, 0⟩ := by
  refine ⟨fun _ => rfl, fun hne => ?_⟩
  have : 0 < (songs.insertionSort r).length := List.length_pos.mpr hne
  show (0 : ℤ) ≤ 0 ∧ (0 : ℤ) < ((songs.insertionSort r).length : ℤ)
  omega

theorem reach_inv (p : Playlist) (h : Reach p) : CursorInv p := by
  induction h with
  | init => exact inv_empty
  | add_song p s _ ih => exact inv_add_song p s ih
  | add_songs p l _ ih => exact inv_add_songs p l ih
  | remove_song p sid _ ih => exact inv_remove_song p sid ih
  | remove_song_at_index p i _ ih => exact inv_remove_song_at_index p i ih
  | clear p _ _ => exact inv_clear p
  | next_song p _ ih => exact inv_next_song p ih
  | previous_song p _ ih => exact inv_previous_song p ih
  | reset_position p _ ih => exact inv_reset_position p ih
  | set_current_index p i _ ih => exact inv_set_current_index p i ih
  | shuffle p l _ hp ih => exact inv_shuffle p l ih hp
  | sort_by_title p _ _ =>
      exact inv_sorted p.songs _ ((List.perm_insertionSort _ p.songs).length_eq)
  | sort_by_artist p _ _ =>
      exact inv_sorted p.songs _ ((List.perm_insertionSort _ p.songs).length_eq)
  | sort_by_rating p rev _ _ =>
      exact inv_sorted p.songs _ ((List.perm_insertionSort _ p.songs).length_eq)
  | sort_by_duration p _ _ =>
      exact inv_sorted p.songs _ ((List.perm_insertionSort _ p.songs).length_eq)

/- ===================== claim C5 ===================== -/

/-- C5: every Playlist operation preserves the cursor invariant — in every
state reachable from a fresh Playlist through add_song, add_songs,
remove_song, remove_song_at_index, clear, next_song, previous_song,
reset_position, set_current_index, shuffle and the sort_by methods, a
non-empty song list has its cursor inside [0, length - 1]. -/
theorem c5_cursor_invariant (p : Playlist) (h : Reach p) (hne : p.songs ≠ []) :
    0 ≤ p.current_index ∧ p.current_index ≤ (p.songs.length : ℤ) - 1 := by
  have hinv := (reach_inv p h).2 hne
  omega

/-- C5 witness: the two-song playlist built by add_songs, then moved with
next_song, is reachable and keeps its cursor at 1 = length - 1. -/
theorem c5_cursor_invariant_witness :
    (Playlist.empty.add_songs [happySongA, happySongB]).next_song.2.songs ≠ [] ∧
    0 ≤ (Playlist.empty.add_songs [happySongA, happySongB]).next_song.2.current_index ∧
    (Playlist.empty.add_songs [happySongA, happySongB]).next_song.2.current_index ≤
      ((Playlist.empty.add_songs [happySongA, happySongB]).next_song.2.songs.length : ℤ) - 1 := by
  have hr : Reach (Playlist.empty.add_songs [happySongA, happySongB]).next_song.2 :=
    Reach.next_song _ (Reach.add_songs _ _ Reach.init)
  have hne : (Playlist.empty.add_songs [happySongA, happySongB]).next_song.2.songs ≠ [] := by
    decide
  exact ⟨hne, c5_cursor_invariant _ hr hne⟩

/- ===================== claim C6 ===================== -/

/-- C6: from cursor 0 on a non-empty playlist of length n, n-1 next_song
calls land on the last track (cursor n-1), the n-th call returns the none
signal leaving the state unchanged, and previous_song at cursor 0 returns
the none signal leaving the state unchanged. -/
theorem c6_navigation_bounded (songs : List Song) (hne : songs ≠ []) :
    (fun p : Playlist => p.next_song.2)^[songs.length - 1] ⟨songs, 0⟩ =
      ⟨songs, (songs.length : ℤ) - 1⟩ ∧
    (Playlist.get_current_song ⟨songs, (songs.length : ℤ) - 1⟩) = songs.getLast? ∧
    (Playlist.next_song ⟨songs, (songs.length : ℤ) - 1⟩) =
      (none, ⟨songs, (songs.length : ℤ) - 1⟩) ∧
    (Playlist.previous_song ⟨songs, 0⟩) = (none, ⟨songs, 0⟩) := by
  have hpos : 0 < songs.length := List.length_pos.mpr hne
  have hiter : ∀ k : ℕ, k ≤ songs.length - 1 →
      (fun p : Playlist => p.next_song.2)^[k] ⟨songs, 0⟩ = ⟨songs, (k : ℤ)⟩ := by
    intro k
    induction k with
    | zero => intro _; rfl
    | succ m ih =>
        intro hm
        rw [Function.iterate_succ_apply', ih (by omega)]
        show (Playlist.next_song ⟨songs, (m : ℤ)⟩).2 = _
        unfold Playlist.next_song
        rw [if_pos (by push_cast; omega)]
        show (⟨songs, (m : ℤ) + 1⟩ : Playlist) = _
        congr 1
  refine ⟨?_, ?_, ?_, ?_⟩
  · rw [hiter (songs.length - 1) le_rfl]
    congr 1
    omega
  · unfold Playlist.get_current_song
    dsimp only
    rw [if_pos (by constructor <;> omega)]
    have htn : ((songs.length : ℤ) - 1).toNat = songs.length - 1 := by omega
    rw [htn, List.getLast?_eq_get? songs]
  · unfold Playlist.next_song
    dsimp only
    rw [if_neg (by omega)]
  · unfold Playlist.previous_song
    dsimp only
    rw [if_neg (by omega)]

/-- C6 witness: the two-track playlist at cursor 0, after one next_song
call, sits on the last track, and previous_song at cursor 0 signals none. -/
theorem c6_navigation_bounded_witness :
    (fun p : Playlist => p.next_song.2)^[[happySongA, happySongB].length - 1]
        ⟨[happySongA, happySongB], 0⟩ =
      ⟨[happySongA, happySongB], ([happySongA, happySongB].length : ℤ) - 1⟩ ∧
    (Playlist.previous_song ⟨[happySongA, happySongB], 0⟩) =
      (none, ⟨[happySongA, happySongB], 0⟩) := by
  have h := c6_navigation_bounded [happySongA, happySongB] (by decide)
  exact ⟨h.1, h.2.2.2⟩

/- ===================== claim C3 helper lemmas ===================== -/

theorem add_songs_nil : (Playlist.empty.add_songs []).songs = [] := rfl

theorem selectWithDiversity_nil (count : ℤ) : selectWithDiversity [] count = [] := by
  unfold selectWithDiversity diversityFirstPass diversitySecondPass
  dsimp only
  split_ifs <;> rfl

theorem selectWithDiversity_nonpos (scored : List (Song × ℚ)) (count : ℤ)
    (h : count ≤ 0) : selectWithDiversity scored count = [] := by
  have hp1 : diversityFirstPass scored count [] [] = [] := by
    cases scored with
    | nil => rfl
    | cons p rest =>
        obtain ⟨song, sc⟩ := p
        unfold diversityFirstPass
        rw [if_pos (by simp; omega)]
  unfold selectWithDiversity
  rw [hp1]
  rw [if_neg (by simp; omega)]

/- ===================== claim C3 ===================== -/

/-- C3 counterexample: `sorted_songs[:count]` with a negative count keeps
all but the last `|count|` songs, so the rule-based strategy applied to a
two-song catalog with count = -1 returns a playlist with one track, not an
empty one as the claim states for every count ≤ 0. -/
theorem c3_counterexample :
    (ruleBasedRecommend [happySongA, happySongB] happyMood (-1)).songs.length = 1 := by
  unfold ruleBasedRecommend
  dsimp only
  rw [show filterByMood happyMood [happySongA, happySongB] = [happySongA, happySongB]
      from by decide]
  rw [show (if [happySongA, happySongB] = ([] : List Song) then [happySongA, happySongB]
      else [happySongA, happySongB]) = [happySongA, happySongB] from by decide]
  set srt := sortByScore [happySongA, happySongB] happyMood with hs
  have hlen : srt.length = 2 := by
    rw [hs]
    exact (List.perm_insertionSort _ [happySongA, happySongB]).length_eq
  have hslice : pySliceTo (-1) srt = srt.take 1 := by
    unfold pySliceTo
    rw [if_neg (by norm_num), hlen]
    norm_num
  obtain ⟨a, rest, hsrt⟩ := List.exists_cons_of_ne_nil
    (show srt ≠ [] from fun hc => by rw [hc] at hlen; simp at hlen)
  rw [hslice, hsrt]
  simp [Playlist.add_songs, Playlist.add_song, Playlist.empty]

/-- C3 as amended: both strategies return an empty playlist on an empty
catalog; the personalized strategy returns an empty playlist for every
count ≤ 0; the rule-based strategy does so for count = 0, and for a
negative count only when the catalog holds at most |count| songs (a
negative count reaches the Python slice `sorted[:count]`, which keeps all
but the last |count| songs). -/
theorem c3_empty_and_nonpositive (db : List Song) (e : Emotion) (u : User) (count : ℤ) :
    (db = [] → (ruleBasedRecommend db e count).songs = [] ∧
      (smartRecommend db e u count).songs = []) ∧
    (count ≤ 0 → (smartRecommend db e u count).songs = []) ∧
    ((ruleBasedRecommend db e 0).songs = []) ∧
    (count < 0 → (db.length : ℤ) ≤ -count → (ruleBasedRecommend db e count).songs = []) := by
  have hrule_slice : ∀ (c : ℤ) (l : List Song), pySliceTo c (sortByScore l e) = [] →
      (Playlist.empty.add_songs (pySliceTo c (sortByScore l e))).songs = [] := by
    intro c l hl
    rw [hl]
    rfl
  refine ⟨?_, ?_, ?_, ?_⟩
  · rintro rfl
    constructor
    · show (Playlist.empty.add_songs (pySliceTo count (sortByScore
        (if filterByMood e [] = [] then [] else filterByMood e []) e))).songs = []
      rw [show (if filterByMood e [] = [] then ([] : List Song) else filterByMood e []) = []
          from by simp [filterByMood]]
      show (Playlist.empty.add_songs (pySliceTo count [])).songs = []
      unfold pySliceTo
      split_ifs <;> rw [List.take_nil] <;> rfl
    · show (Playlist.empty.add_songs (selectWithDiversity _ count)).songs = []
      rw [show (if filterByMood e [] = [] then ([] : List Song) else filterByMood e []) = []
          from by simp [filterByMood]]
      rw [show (List.map (fun s => (s, calculateAdvancedScore s e u)) []) = [] from rfl]
      rw [show (List.insertionSort (fun a b : Song × ℚ => b.2 ≤ a.2) []) = [] from rfl]
      rw [selectWithDiversity_nil]
      rfl
  · intro hc
    show (Playlist.empty.add_songs (selectWithDiversity _ count)).songs = []
    rw [selectWithDiversity_nonpos _ _ hc]
    rfl
  · show (Playlist.empty.add_songs (pySliceTo 0 (sortByScore _ e))).songs = []
    apply hrule_slice 0
    unfold pySliceTo
    rw [if_pos le_rfl]
    rfl
  · intro hneg hlen
    apply hrule_slice count
    unfold pySliceTo
    rw [if_neg (by omega)]
    have hsl : (sortByScore (if filterByMood e db = [] then db else filterByMood e db) e).length
        ≤ db.length := by
      unfold sortByScore
      rw [(List.perm_insertionSort _ _).length_eq]
      split_ifs with hf
      · exact le_rfl
      · exact List.length_filter_le _ _
    rw [show (sortByScore (if filterByMood e db = [] then db else filterByMood e db) e).length
        - count.natAbs = 0 from by omega]
    rfl

/-- C3 witness: on the empty catalog with count -1 both strategies return
empty playlists, and the rule-based strategy is empty at count 0. -/
theorem c3_empty_and_nonpositive_witness :
    (ruleBasedRecommend [] happyMood (-1)).songs = [] ∧
    (smartRecommend [] happyMood emptyUser (-1)).songs = [] ∧
    (ruleBasedRecommend [] happyMood 0).songs = [] ∧
    (ruleBasedRecommend [] happyMood (-1)).songs = [] := by
  have h := c3_empty_and_nonpositive [] happyMood emptyUser (-1)
  exact ⟨(h.1 rfl).1, h.2.1 (by norm_num), h.2.2.1,
    h.2.2.2 (by norm_num) (by norm_num)⟩

/- ===================== claim C4 helper lemmas ===================== -/

theorem pass1_eq_spec (scored : List (Song × ℚ)) (count : ℤ) :
    ∀ (acc : List Song) (gs : List String), gs.Nodup →
      gs.toFinset = (acc.map Song.genre).toFinset →
      diversityFirstPass scored count acc gs = specDiversityPass scored count acc := by
  induction scored with
  | nil => intro acc gs _ _; rfl
  | cons p rest ih =>
      intro acc gs hnd hts
      obtain ⟨song, sc⟩ := p
      unfold diversityFirstPass specDiversityPass
      by_cases hc : count ≤ (acc.length : ℤ)
      · rw [if_pos hc, if_pos hc]
      · rw [if_neg hc, if_neg hc]
        have hmem : song.genre ∈ gs ↔ song.genre ∈ acc.map Song.genre := by
          rw [← List.mem_toFinset, hts, List.mem_toFinset]
        have hcard : gs.length = (acc.map Song.genre).toFinset.card := by
          rw [← hts]
          exact (List.toFinset_card_of_nodup hnd).symm
        by_cases ha : song.genre ∉ acc.map Song.genre ∨
            3 ≤ (acc.map Song.genre).toFinset.card
        · rw [if_pos (by rw [hmem, hcard]; exact ha), if_pos ha]
          by_cases hm : song.genre ∈ gs
          · rw [if_pos hm]
            apply ih _ gs hnd
            rw [List.map_append, List.toFinset_append, hts]
            have : (([song] : List Song).map Song.genre).toFinset ⊆
                (acc.map Song.genre).toFinset := by
              simp only [List.map_cons, List.map_nil, List.toFinset_cons, List.toFinset_nil]
              simp [List.mem_toFinset.mpr (hmem.mp hm)]
            rw [Finset.union_eq_left.mpr this]
          · rw [if_neg hm]
            apply ih _ (gs ++ [song.genre])
            · rw [List.nodup_append]
              exact ⟨hnd, List.nodup_singleton _, by simp [List.disjoint_left, hm]⟩
            · rw [List.map_append, List.toFinset_append, List.toFinset_append, hts]
              rfl
        · rw [if_neg (by rw [hmem, hcard]; exact ha), if_neg ha]
          exact ih acc gs hnd hts

theorem pass2_eq_spec (scored : List (Song × ℚ)) (count : ℤ) :
    ∀ selected : List Song, (scored.map Prod.fst).Nodup →
      (selected.length : ℤ) < count →
      diversitySecondPass scored count selected =
        selected ++ ((scored.map Prod.fst).filter (fun s => s ∉ selected)).take
          ((count - selected.length).toNat) := by
  induction scored with
  | nil => intro selected _ _; simp [diversitySecondPass]
  | cons p rest ih =>
      intro selected hnd hlt
      obtain ⟨song, sc⟩ := p
      have hnd' : (rest.map Prod.fst).Nodup := by
        simp only [List.map_cons, List.nodup_cons] at hnd
        exact hnd.2
      have hsr : song ∉ rest.map Prod.fst := by
        simp only [List.map_cons, List.nodup_cons] at hnd
        exact hnd.1
      unfold diversitySecondPass
      by_cases hm : song ∈ selected
      · rw [if_pos hm, ih selected hnd' hlt]
        simp only [List.map_cons, List.filter_cons]
        rw [if_neg (by simp [hm])]
      · rw [if_neg hm]
        dsimp only
        by_cases hfull : count ≤ ((selected ++ [song]).length : ℤ)
        · rw [if_pos hfull]
          rw [List.length_append, List.length_singleton] at hfull
          have h1 : (count - selected.length).toNat = 1 := by
            push_cast at hfull
            omega
          rw [h1]
          simp only [List.map_cons, List.filter_cons]
          rw [if_pos (by simp [hm])]
          rw [List.take_succ_cons, List.take_zero]
        · rw [if_neg hfull]
          have hfull2 : (selected.length : ℤ) + 1 < count := by
            rw [List.length_append, List.length_singleton] at hfull
            push_cast at hfull
            omega
          rw [ih (selected ++ [song]) hnd'
            (by rw [List.length_append, List.length_singleton]; push_cast; omega)]
          have hfilter : (rest.map Prod.fst).filter (fun s => s ∉ (selected ++ [song])) =
              (rest.map Prod.fst).filter (fun s => s ∉ selected) := by
            apply List.filter_congr
            intro x hx
            have hxs : x ≠ song := fun hc => hsr (hc ▸ hx)
            simp [List.mem_append, hxs]
          rw [hfilter]
          have htake : (count - selected.length).toNat =
              (count - ((selected ++ [song]).length : ℤ)).toNat + 1 := by
            rw [List.length_append, List.length_singleton]
            push_cast
            omega
          rw [htake]
          simp only [List.map_cons, List.filter_cons]
          rw [if_pos (by simp [hm])]
          rw [List.take_succ_cons, List.append_assoc]
          rfl

theorem pass2_extends (scored : List (Song × ℚ)) (count : ℤ) :
    ∀ sel : List Song, ∃ t, diversitySecondPass scored count sel = sel ++ t := by
  induction scored with
  | nil => intro sel; exact ⟨[], (List.append_nil sel).symm⟩
  | cons p rest ih =>
      intro sel
      obtain ⟨song, sc⟩ := p
      unfold diversitySecondPass
      by_cases hm : song ∈ sel
      · rw [if_pos hm]; exact ih sel
      · rw [if_neg hm]
        dsimp only
        by_cases hf : count ≤ ((sel ++ [song]).length : ℤ)
        · rw [if_pos hf]; exact ⟨[song], rfl⟩
        · rw [if_neg hf]
          obtain ⟨t, ht⟩ := ih (sel ++ [song])
          exact ⟨[song] ++ t, by rw [ht, List.append_assoc]⟩

theorem select_extends (scored : List (Song × ℚ)) (count : ℤ) :
    ∃ t, selectWithDiversity scored count = diversityFirstPass scored count [] [] ++ t := by
  unfold selectWithDiversity
  dsimp only
  split_ifs with h
  · exact pass2_extends scored count _
  · exact ⟨[], (List.append_nil _).symm⟩

theorem pass1_length_bound (scored : List (Song × ℚ)) (count : ℤ) :
    ∀ (acc : List Song) (gs : List String),
      count ≤ ((diversityFirstPass scored count acc gs).length : ℤ) ∨
      acc.length + ((scored.map (fun p => p.1.genre)).toFinset \ gs.toFinset).card ≤
        (diversityFirstPass scored count acc gs).length := by
  induction scored with
  | nil =>
      intro acc gs
      right
      simp [diversityFirstPass]
  | cons p rest ih =>
      intro acc gs
      obtain ⟨song, sc⟩ := p
      unfold diversityFirstPass
      by_cases hc : count ≤ (acc.length : ℤ)
      · rw [if_pos hc]; left; exact hc
      · rw [if_neg hc]
        by_cases ha : song.genre ∉ gs ∨ 3 ≤ gs.length
        · rw [if_pos ha]
          by_cases hm : song.genre ∈ gs
          · rw [if_pos hm]
            rcases ih (acc ++ [song]) gs with h | h
            · left; exact h
            · right
              have hsd : (((song, sc) :: rest).map (fun p => p.1.genre)).toFinset \ gs.toFinset
                  = (rest.map (fun p => p.1.genre)).toFinset \ gs.toFinset := by
                simp only [List.map_cons, List.toFinset_cons]
                exact Finset.insert_sdiff_of_mem _ (List.mem_toFinset.mpr hm)
              rw [hsd]
              rw [List.length_append, List.length_singleton] at h
              omega
          · rw [if_neg hm]
            rcases ih (acc ++ [song]) (gs ++ [song.genre]) with h | h
            · left; exact h
            · right
              have hsub : (((song, sc) :: rest).map (fun p => p.1.genre)).toFinset \ gs.toFinset
                  ⊆ insert song.genre
                    ((rest.map (fun p => p.1.genre)).toFinset \ (gs ++ [song.genre]).toFinset) := by
                intro x hx
                simp only [List.map_cons, List.toFinset_cons, Finset.mem_sdiff,
                  Finset.mem_insert, List.toFinset_append, Finset.mem_union,
                  List.toFinset_cons, List.toFinset_nil, insert_emptyc_eq,
                  Finset.mem_singleton] at hx ⊢
                rcases hx with ⟨hx1 | hx1, hx2⟩
                · left; exact hx1
                · by_cases hxg : x = song.genre
                  · left; exact hxg
                  · right; exact ⟨hx1, fun hc => hc.elim (fun hh => hx2 hh) (fun hh => hxg hh)⟩
              have hcard := Finset.card_le_card hsub
              have hcard2 := Finset.card_insert_le song.genre
                ((rest.map (fun p => p.1.genre)).toFinset \ (gs ++ [song.genre]).toFinset)
              rw [List.length_append, List.length_singleton] at h
              omega
        · rw [if_neg ha]
          push_neg at ha
          rcases ih acc gs with h | h
          · left; exact h
          · right
            have hsd : (((song, sc) :: rest).map (fun p => p.1.genre)).toFinset \ gs.toFinset
                = (rest.map (fun p => p.1.genre)).toFinset \ gs.toFinset := by
              simp only [List.map_cons, List.toFinset_cons]
              exact Finset.insert_sdiff_of_mem _ (List.mem_toFinset.mpr ha.1)
            rw [hsd]
            exact h

theorem pass1_take3_nodup (scored : List (Song × ℚ)) (count : ℤ) :
    ∀ (acc : List Song) (gs : List String), gs.Nodup →
      gs.toFinset = (acc.map Song.genre).toFinset →
      (((acc.take 3).map Song.genre).Nodup) →
      ((((diversityFirstPass scored count acc gs).take 3).map Song.genre).Nodup) := by
  induction scored with
  | nil => intro acc gs _ _ h3; exact h3
  | cons p rest ih =>
      intro acc gs hnd hts h3
      obtain ⟨song, sc⟩ := p
      unfold diversityFirstPass
      by_cases hc : count ≤ (acc.length : ℤ)
      · rw [if_pos hc]; exact h3
      · rw [if_neg hc]
        have hmem : song.genre ∈ gs ↔ song.genre ∈ acc.map Song.genre := by
          rw [← List.mem_toFinset, hts, List.mem_toFinset]
        by_cases ha : song.genre ∉ gs ∨ 3 ≤ gs.length
        · rw [if_pos ha]
          by_cases hm : song.genre ∈ gs
          · rw [if_pos hm]
            have h3le : 3 ≤ acc.length := by
              have hga : 3 ≤ gs.length := ha.resolve_left (by simpa using hm)
              have h1 : gs.length = gs.toFinset.card :=
                (List.toFinset_card_of_nodup hnd).symm
              have h2 : (acc.map Song.genre).toFinset.card ≤ (acc.map Song.genre).length :=
                List.toFinset_card_le _
              rw [List.length_map] at h2
              rw [h1, hts] at hga
              omega
            apply ih _ gs hnd
            · rw [List.map_append, List.toFinset_append, hts]
              have : (([song] : List Song).map Song.genre).toFinset ⊆
                  (acc.map Song.genre).toFinset := by
                simp only [List.map_cons, List.map_nil, List.toFinset_cons, List.toFinset_nil]
                simp [List.mem_toFinset.mpr (hmem.mp hm)]
              rw [Finset.union_eq_left.mpr this]
            · rw [List.take_append_of_le_length h3le]
              exact h3
          · rw [if_neg hm]
            apply ih _ (gs ++ [song.genre])
            · rw [List.nodup_append]
              exact ⟨hnd, List.nodup_singleton _, by simp [List.disjoint_left, hm]⟩
            · rw [List.map_append, List.toFinset_append, List.toFinset_append, hts]
              rfl
            · by_cases h3le : 3 ≤ acc.length
              · rw [List.take_append_of_le_length h3le]
                exact h3
              · push_neg at h3le
                rw [List.take_of_length_le (by rw [List.length_append, List.length_singleton]; omega)]
                rw [List.take_of_length_le (by omega)] at h3
                rw [List.map_append, List.nodup_append]
                refine ⟨h3, by simp, ?_⟩
                simp only [List.map_cons, List.map_nil]
                intro x hx
                simp only [List.mem_singleton]
                intro hxg
                exact hm (hmem.mpr (hxg ▸ hx))
        · rw [if_neg ha]
          exact ih acc gs hnd hts h3

/- ===================== claim C4 ===================== -/

/-- C4: the diversity selection equals, pair by pair, the spec's
description — a first pass accepting exactly the tracks whose genre is new
or that arrive once three distinct genres are already accepted, stopping
at count, followed by a fill pass taking the highest-scoring not-yet-
selected tracks in score order (stated for lists of pairwise-distinct
tracks, matching Python's object-identity membership test); moreover for
count = 6 over a scored list spanning at least 4 genres, at least three
tracks are selected and the first three have pairwise distinct genres. -/
theorem c4_diversity (scored : List (Song × ℚ)) (count : ℤ) :
    ((scored.map Prod.fst).Nodup →
      selectWithDiversity scored count = specDiversitySelect scored count) ∧
    (4 ≤ (scored.map (fun p => p.1.genre)).toFinset.card →
      3 ≤ (selectWithDiversity scored 6).length ∧
      (((selectWithDiversity scored 6).take 3).map Song.genre).Nodup) := by
  constructor
  · intro hnd
    unfold selectWithDiversity specDiversitySelect
    dsimp only
    rw [pass1_eq_spec scored count [] [] List.nodup_nil (by simp)]
    split_ifs with h
    · exact pass2_eq_spec scored count _ hnd h
    · rfl
  · intro hcard
    obtain ⟨t, ht⟩ := select_extends scored 6
    have hlen1 : 3 ≤ (diversityFirstPass scored 6 [] []).length := by
      rcases pass1_length_bound scored 6 [] [] with h | h
      · omega
      · simp only [List.toFinset_nil, Finset.sdiff_empty, List.length_nil, Nat.zero_add] at h
        omega
    constructor
    · rw [ht, List.length_append]
      omega
    · rw [ht, List.take_append_of_le_length hlen1]
      exact pass1_take3_nodup scored 6 [] [] List.nodup_nil (by simp) (by simp)

/-- C4 witness: over four tracks of four distinct genres with descending
scores and count 6, the code selection equals the spec selection, at least
three tracks are selected, and the first three have distinct genres. -/
theorem c4_diversity_witness :
    selectWithDiversity scoredExample 6 = specDiversitySelect scoredExample 6 ∧
    3 ≤ (selectWithDiversity scoredExample 6).length ∧
    (((selectWithDiversity scoredExample 6).take 3).map Song.genre).Nodup := by
  have h := c4_diversity scoredExample 6
  exact ⟨h.1 (by decide), (h.2 (by decide)).1, (h.2 (by decide)).2⟩

/- ===================== claim C9 helper lemmas ===================== -/

theorem pyMaxBy_spec {α : Type} (key : α → ℕ) (x : α) (rest : List α) :
    ∃ r, pyMaxBy key (x :: rest) = some r ∧ (r = x ∨ r ∈ rest) ∧ key x ≤ key r ∧
      ∀ y ∈ rest, key y ≤ key r := by
  induction rest generalizing x with
  | nil => exact ⟨x, rfl, Or.inl rfl, le_rfl, by simp⟩
  | cons a t ih =>
      obtain ⟨r, hr, hmem, hx, hall⟩ := ih (if key x < key a then a else x)
      refine ⟨r, ?_, ?_, ?_, ?_⟩
      · show some ((a :: t).foldl (fun best y => if key best < key y then y else best) x) = some r
        rw [List.foldl_cons]
        exact hr
      · rcases hmem with h | h
        · subst h
          split_ifs with hxa
          · exact Or.inr (List.mem_cons_self _ _)
          · exact Or.inl rfl
        · exact Or.inr (List.mem_cons_of_mem _ h)
      · refine le_trans ?_ hx
        split_ifs with hxa
        · exact le_of_lt hxa
        · exact le_rfl
      · intro y hy
        rcases List.mem_cons.mp hy with h | h
        · subst h
          refine le_trans ?_ hx
          split_ifs with hxa
          · exact le_rfl
          · omega
        · exact hall y h

theorem pyMaxBy_first {α : Type} (key : α → ℕ) (x : α) (rest : List α) :
    ∃ r l₁ l₂, pyMaxBy key (x :: rest) = some r ∧ x :: rest = l₁ ++ r :: l₂ ∧
      ∀ y ∈ l₁, key y < key r := by
  induction rest generalizing x with
  | nil => exact ⟨x, [], [], rfl, rfl, by simp⟩
  | cons a t ih =>
      obtain ⟨r, l₁, l₂, hr, hdec, hlt⟩ := ih (if key x < key a then a else x)
      have hfold : pyMaxBy key (x :: a :: t) = some r := by
        show some ((a :: t).foldl (fun best y => if key best < key y then y else best) x) = some r
        rw [List.foldl_cons]
        exact hr
      by_cases hxa : key x < key a
      · rw [if_pos hxa] at hr hdec
        have hkey : key a ≤ key r := by
          obtain ⟨r', hr', _, hx', _⟩ := pyMaxBy_spec key a t
          rw [hr'] at hr
          injection hr with hr
          rw [hr] at hx'
          exact hx'
        refine ⟨r, x :: l₁, l₂, hfold, ?_, ?_⟩
        · rw [List.cons_append, ← hdec]
        · intro y hy
          rcases List.mem_cons.mp hy with h | h
          · subst h
            omega
          · exact hlt y h
      · rw [if_neg hxa] at hr hdec
        cases l₁ with
        | nil =>
            simp only [List.nil_append] at hdec
            have hx : x = r := (List.cons_eq_cons.mp hdec).1
            have ht : t = l₂ := (List.cons_eq_cons.mp hdec).2
            refine ⟨r, [], a :: l₂, hfold, ?_, by simp⟩
            rw [List.nil_append, ← hx, ← ht]
        | cons b l₁t =>
            simp only [List.cons_append] at hdec
            have hx : x = b := (List.cons_eq_cons.mp hdec).1
            have ht : t = l₁t ++ r :: l₂ := (List.cons_eq_cons.mp hdec).2
            have hbr : key b < key r := hlt b (List.mem_cons_self _ _)
            refine ⟨r, x :: a :: l₁t, l₂, hfold, ?_, ?_⟩
            · rw [ht]
              rfl
            · intro y hy
              rcases List.mem_cons.mp hy with h | h
              · subst h
                rw [hx]
                exact hbr
              · rcases List.mem_cons.mp h with h2 | h2
                · subst h2
                  rw [hx] at hxa
                  omega
                · exact hlt y (List.mem_cons_of_mem _ h2)

theorem lookup_cons (k q : String) (v : ℕ) (rest : List (String × ℕ)) :
    List.lookup k ((q, v) :: rest) = if k = q then some v else List.lookup k rest := by
  by_cases h : k = q
  · subst h
    rw [if_pos rfl]
    simp [List.lookup]
  · rw [if_neg h]
    simp [List.lookup, beq_false_of_ne h]

theorem bump_lookup (counts : List (String × ℕ)) (e k : String) :
    List.lookup k (bump counts e) =
      if k = e then some ((List.lookup k counts).getD 0 + 1) else List.lookup k counts := by
  induction counts with
  | nil =>
      show List.lookup k [(e, 1)] = _
      rw [lookup_cons]
      by_cases hk : k = e <;> simp [hk, List.lookup]
  | cons p rest ih =>
      obtain ⟨q, v⟩ := p
      unfold bump
      by_cases hqe : q = e
      · subst hqe
        rw [if_pos rfl, lookup_cons, lookup_cons]
        by_cases hk : k = q
        · rw [if_pos hk, if_pos hk, if_pos hk]
          simp
        · rw [if_neg hk, if_neg hk, if_neg hk]
      · rw [if_neg hqe, lookup_cons]
        by_cases hk : k = q
        · have hke : ¬k = e := by rw [hk]; exact hqe
          rw [if_pos hk, if_neg hke, lookup_cons, if_pos hk]
        · rw [if_neg hk, ih]
          by_cases hke : k = e
          · rw [if_pos hke, if_pos hke, lookup_cons, if_neg hk]
          · rw [if_neg hke, if_neg hke, lookup_cons, if_neg hk]

theorem bump_keys (counts : List (String × ℕ)) (e : String) :
    (bump counts e).map Prod.fst =
      if e ∈ counts.map Prod.fst then counts.map Prod.fst else counts.map Prod.fst ++ [e] := by
  induction counts with
  | nil => simp [bump]
  | cons p rest ih =>
      obtain ⟨q, v⟩ := p
      unfold bump
      by_cases hqe : q = e
      · subst hqe
        rw [if_pos rfl]
        simp
      · rw [if_neg hqe]
        simp only [List.map_cons, ih]
        have hme : (e ∈ q :: rest.map Prod.fst) ↔ e ∈ rest.map Prod.fst := by
          simp [Ne.symm hqe]
        by_cases hmem : e ∈ rest.map Prod.fst
        · rw [if_pos hmem, if_pos (by simp [hme, hmem])]
        · rw [if_neg hmem, if_neg (by simp [hme, hmem])]
          rfl

theorem countE_lookup (l : List String) :
    ∀ (acc : List (String × ℕ)) (k : String),
      List.lookup k (List.foldl bump acc l) =
        if k ∈ l ∨ (List.lookup k acc).isSome
        then some ((List.lookup k acc).getD 0 + l.count k)
        else none := by
  induction l with
  | nil =>
      intro acc k
      cases hl : List.lookup k acc <;> simp [hl]
  | cons a t ih =>
      intro acc k
      rw [List.foldl_cons, ih (bump acc a) k, bump_lookup]
      by_cases hka : k = a
      · subst hka
        rw [if_pos rfl]
        rw [if_pos (by simp), if_pos (Or.inl (List.mem_cons_self _ _))]
        simp only [Option.getD_some, Option.some.injEq, List.count_cons_self]
        omega
      · rw [if_neg hka]
        have hmem : (k ∈ a :: t) ↔ k ∈ t := by simp [hka]
        rw [List.count_cons_of_ne hka]
        by_cases hcond : k ∈ t ∨ (List.lookup k acc).isSome
        · rw [if_pos hcond, if_pos (by rw [hmem]; exact hcond)]
        · rw [if_neg hcond, if_neg (by rw [hmem]; exact hcond)]

theorem lookup_mem {l : List (String × ℕ)} {k : String} {v : ℕ}
    (h : List.lookup k l = some v) : (k, v) ∈ l := by
  induction l with
  | nil => simp [List.lookup] at h
  | cons p rest ih =>
      obtain ⟨q, w⟩ := p
      rw [lookup_cons] at h
      by_cases hk : k = q
      · rw [if_pos hk] at h
        injection h with h
        rw [hk, h]
        exact List.mem_cons_self _ _
      · rw [if_neg hk] at h
        exact List.mem_cons_of_mem _ (ih h)

theorem mem_lookup_of_nodup {l : List (String × ℕ)} {k : String} {v : ℕ}
    (hnd : (l.map Prod.fst).Nodup) (h : (k, v) ∈ l) : List.lookup k l = some v := by
  induction l with
  | nil => simp at h
  | cons p rest ih =>
      obtain ⟨q, w⟩ := p
      simp only [List.map_cons, List.nodup_cons] at hnd
      rw [lookup_cons]
      rcases List.mem_cons.mp h with h1 | h1
      · injection h1 with hk hv
        rw [if_pos hk, hv]
      · have hkq : ¬k = q := by
          intro hc
          subst hc
          exact hnd.1 (List.mem_map.mpr ⟨(k, v), h1, rfl⟩)
        rw [if_neg hkq]
        exact ih hnd.2 h1

theorem countE_keys (emos : List String) :
    ∀ (l : List String) (acc : List (String × ℕ)) (pre : List String),
      emos = pre ++ l →
      (∀ k, k ∈ acc.map Prod.fst ↔ k ∈ pre) →
      (acc.map Prod.fst).Nodup →
      List.Pairwise (fun a b => emos.indexOf a ≤ emos.indexOf b) (acc.map Prod.fst) →
      (∀ k, k ∈ (List.foldl bump acc l).map Prod.fst ↔ k ∈ emos) ∧
      ((List.foldl bump acc l).map Prod.fst).Nodup ∧
      List.Pairwise (fun a b => emos.indexOf a ≤ emos.indexOf b)
        ((List.foldl bump acc l).map Prod.fst) := by
  intro l
  induction l with
  | nil =>
      intro acc pre hsplit hmem hnd hpw
      rw [List.append_nil] at hsplit
      subst hsplit
      exact ⟨hmem, hnd, hpw⟩
  | cons a t ih =>
      intro acc pre hsplit hmem hnd hpw
      rw [List.foldl_cons]
      by_cases hmA : a ∈ acc.map Prod.fst
      · have hk : (bump acc a).map Prod.fst = acc.map Prod.fst := by
          rw [bump_keys, if_pos hmA]
        refine ih (bump acc a) (pre ++ [a]) (by rw [hsplit, List.append_assoc]; rfl) ?_ ?_ ?_
        · intro k
          rw [hk, hmem k]
          constructor
          · intro h
            exact List.mem_append.mpr (Or.inl h)
          · intro h
            rcases List.mem_append.mp h with h | h
            · exact h
            · rw [List.mem_singleton.mp h]
              exact (hmem a).mp hmA
        · rw [hk]; exact hnd
        · rw [hk]; exact hpw
      · have hk : (bump acc a).map Prod.fst = acc.map Prod.fst ++ [a] := by
          rw [bump_keys, if_neg hmA]
        have hpre : a ∉ pre := fun hc => hmA ((hmem a).mpr hc)
        refine ih (bump acc a) (pre ++ [a]) (by rw [hsplit, List.append_assoc]; rfl) ?_ ?_ ?_
        · intro k
          rw [hk]
          constructor
          · intro h
            rcases List.mem_append.mp h with h | h
            · exact List.mem_append.mpr (Or.inl ((hmem k).mp h))
            · exact List.mem_append.mpr (Or.inr h)
          · intro h
            rcases List.mem_append.mp h with h | h
            · exact List.mem_append.mpr (Or.inl ((hmem k).mpr h))
            · exact List.mem_append.mpr (Or.inr h)
        · rw [hk, List.nodup_append]
          refine ⟨hnd, List.nodup_singleton _, ?_⟩
          simp [List.disjoint_left, hmA]
        · rw [hk]
          rw [List.pairwise_append]
          refine ⟨hpw, List.pairwise_singleton _ _, ?_⟩
          intro x hx y hy
          rw [List.mem_singleton.mp hy]
          have hxpre : x ∈ pre := (hmem x).mp hx
          have hxlt : emos.indexOf x < pre.length := by
            rw [hsplit, List.indexOf_append_of_mem hxpre]
            exact List.indexOf_lt_length.mpr hxpre
          have hage : pre.length ≤ emos.indexOf a := by
            rw [hsplit, List.indexOf_append_of_not_mem hpre]
            omega
          omega

theorem foldl_intensity_eq_sum (history : List MoodRecord) :
    history.foldl (fun t r => t + r.intensity) 0 =
      (history.map MoodRecord.intensity).sum := by
  rw [← List.foldl_map (MoodRecord.intensity) (fun t r => t + r)]
  rw [List.sum_eq_foldl]

/- ===================== claim C9 ===================== -/

/-- C9 counterexample: for a user with no mood history, the returned
record carries no favorite-time entry at all (modelled as `none`) instead
of the bucket "unknown" that the claim requires. -/
theorem c9_counterexample :
    (getMoodStatistics emptyUser).favorite_time = none ∧
    ¬((getMoodStatistics emptyUser).favorite_time = some "unknown") ∧
    emptyUser.mood_history = [] := by
  decide

/-- C9 as amended: with a non-empty history the statistics record holds
the total count, the most frequent emotion (ties broken by first
encounter in history order) with its count, the mean intensity rounded to
two decimals, the full distribution (each emotion mapped to its count),
and the favorite listening bucket (first bucket of maximal count, or
"unknown" when all four counters are zero); with an empty history the
record is the degenerate one that omits the most-common count and the
favorite-time entry instead of reporting "unknown". -/
theorem c9_mood_statistics (u : User) :
    (u.mood_history = [] →
      getMoodStatistics u = ⟨0, none, none, 0, [], none⟩) ∧
    (u.mood_history ≠ [] →
      (getMoodStatistics u).total_records = u.mood_history.length ∧
      (∀ k : String,
        List.lookup k (getMoodStatistics u).mood_distribution =
          if k ∈ u.mood_history.map MoodRecord.emotion_type
          then some ((u.mood_history.map MoodRecord.emotion_type).count k)
          else none) ∧
      (∃ m : String,
        (getMoodStatistics u).most_common_mood = some m ∧
        m ∈ u.mood_history.map MoodRecord.emotion_type ∧
        (getMoodStatistics u).most_common_count =
          some ((u.mood_history.map MoodRecord.emotion_type).count m) ∧
        (∀ e ∈ u.mood_history.map MoodRecord.emotion_type,
          (u.mood_history.map MoodRecord.emotion_type).count e ≤
            (u.mood_history.map MoodRecord.emotion_type).count m) ∧
        (∀ e ∈ u.mood_history.map MoodRecord.emotion_type,
          (u.mood_history.map MoodRecord.emotion_type).count e =
            (u.mood_history.map MoodRecord.emotion_type).count m →
          (u.mood_history.map MoodRecord.emotion_type).indexOf m ≤
            (u.mood_history.map MoodRecord.emotion_type).indexOf e)) ∧
      (getMoodStatistics u).average_intensity =
        pyRound2 (((u.mood_history.map MoodRecord.intensity).sum : ℚ) /
          (u.mood_history.length : ℚ)) ∧
      ((getMoodStatistics u).favorite_time = some (getFavoriteListeningTime u) ∧
       (u.hours_morning + u.hours_afternoon + u.hours_evening + u.hours_night = 0 →
         getFavoriteListeningTime u = "unknown") ∧
       (u.hours_morning + u.hours_afternoon + u.hours_evening + u.hours_night ≠ 0 →
         ∃ p, p ∈ listeningItems u ∧ getFavoriteListeningTime u = p.1 ∧
           ∀ q ∈ listeningItems u, q.2 ≤ p.2))) := by
  constructor
  · intro h
    unfold getMoodStatistics
    rw [if_pos h]
  · intro hne
    have hemne : u.mood_history.map MoodRecord.emotion_type ≠ [] := by
      simp [hne]
    set emos := u.mood_history.map MoodRecord.emotion_type with hemos
    obtain ⟨hkm, hknd, hkpw⟩ := countE_keys emos emos [] [] rfl (by simp) (by simp) (by simp)
    set counts := countEmotions emos with hcounts
    have hkm' : ∀ k, k ∈ counts.map Prod.fst ↔ k ∈ emos := hkm
    have hknd' : (counts.map Prod.fst).Nodup := hknd
    have hkpw' : List.Pairwise (fun a b => emos.indexOf a ≤ emos.indexOf b)
        (counts.map Prod.fst) := hkpw
    have hlook : ∀ k, List.lookup k counts =
        if k ∈ emos then some (emos.count k) else none := by
      intro k
      rw [hcounts]
      unfold countEmotions
      rw [countE_lookup emos [] k]
      simp [List.lookup]
    obtain ⟨e0, erest, he⟩ := List.exists_cons_of_ne_nil hemne
    have hcne : counts ≠ [] := by
      intro hc
      have h0 : e0 ∈ counts.map Prod.fst :=
        (hkm' e0).mpr (by rw [he]; exact List.mem_cons_self _ _)
      rw [hc] at h0
      simp at h0
    obtain ⟨c0, crest, hcshape⟩ := List.exists_cons_of_ne_nil hcne
    obtain ⟨r, l₁, l₂, hmaxeq, hdec, hl₁⟩ := pyMaxBy_first Prod.snd c0 crest
    have hmax : pyMaxBy Prod.snd counts = some r := by rw [hcshape]; exact hmaxeq
    obtain ⟨r2, hr2eq, _, hr2x, hr2all⟩ := pyMaxBy_spec Prod.snd c0 crest
    have hrr2 : r2 = r := by
      rw [hmaxeq] at hr2eq
      injection hr2eq with h2
      exact h2.symm
    rw [hrr2] at hr2x hr2all
    have hrmem : r ∈ counts := by
      rw [hcshape, hdec]
      exact List.mem_append.mpr (Or.inr (List.mem_cons_self _ _))
    have hm_in : r.1 ∈ emos := (hkm' r.1).mp (List.mem_map.mpr ⟨r, hrmem, rfl⟩)
    have hrv : r.2 = emos.count r.1 := by
      have hl := mem_lookup_of_nodup hknd' (show (r.1, r.2) ∈ counts from hrmem)
      rw [hlook r.1, if_pos hm_in] at hl
      injection hl with hl
      exact hl.symm
    have hmaxall : ∀ e ∈ emos, emos.count e ≤ emos.count r.1 := by
      intro e heme
      have hmem2 : (e, emos.count e) ∈ counts := lookup_mem (by rw [hlook e, if_pos heme])
      rw [← hrv]
      rw [hcshape] at hmem2
      rcases List.mem_cons.mp hmem2 with h | h
      · have : c0.2 ≤ r.2 := hr2x
        rw [← h] at this
        exact this
      · exact hr2all _ h
    have htie : ∀ e ∈ emos, emos.count e = emos.count r.1 →
        emos.indexOf r.1 ≤ emos.indexOf e := by
      intro e heme heq
      have hmem2 : (e, emos.count e) ∈ counts := lookup_mem (by rw [hlook e, if_pos heme])
      rw [hcshape, hdec] at hmem2
      rcases List.mem_append.mp hmem2 with h | h
      · exfalso
        have hlow := hl₁ _ h
        have : emos.count e < r.2 := hlow
        rw [hrv] at this
        omega
      · rcases List.mem_cons.mp h with h | h
        · have he2 : e = r.1 := congrArg Prod.fst h
          rw [he2]
        · have hpw2 := hkpw'
          rw [hcshape, hdec, List.map_append, List.map_cons] at hpw2
          have hp3 := (List.pairwise_append.mp hpw2).2.1
          have hrel := (List.pairwise_cons.mp hp3).1
          exact hrel e (List.mem_map.mpr ⟨(e, emos.count e), h, rfl⟩)
    have hstats : getMoodStatistics u =
        ⟨u.mood_history.length, some r.1, some r.2,
         pyRound2 (((u.mood_history.foldl (fun t rr => t + rr.intensity) 0 : ℤ) : ℚ) /
           (u.mood_history.length : ℚ)),
         counts, some (getFavoriteListeningTime u)⟩ := by
      unfold getMoodStatistics
      rw [if_neg hne]
      dsimp only
      rw [← hemos, ← hcounts, hmax]
    have hfav0 : u.hours_morning + u.hours_afternoon + u.hours_evening + u.hours_night = 0 →
        getFavoriteListeningTime u = "unknown" := by
      intro h
      unfold getFavoriteListeningTime
      rw [if_pos h]
    have hfav1 : u.hours_morning + u.hours_afternoon + u.hours_evening + u.hours_night ≠ 0 →
        ∃ p, p ∈ listeningItems u ∧ getFavoriteListeningTime u = p.1 ∧
          ∀ q ∈ listeningItems u, q.2 ≤ p.2 := by
      intro h
      obtain ⟨p, hp, hpmem, hpx, hpall⟩ := pyMaxBy_spec Prod.snd ("morning", u.hours_morning)
        [("afternoon", u.hours_afternoon), ("evening", u.hours_evening),
         ("night", u.hours_night)]
      have hfl : getFavoriteListeningTime u = p.1 := by
        unfold getFavoriteListeningTime
        rw [if_neg h]
        unfold listeningItems
        rw [hp]
      refine ⟨p, ?_, hfl, ?_⟩
      · unfold listeningItems
        rcases hpmem with h2 | h2
        · rw [h2]; exact List.mem_cons_self _ _
        · exact List.mem_cons_of_mem _ h2
      · intro q hq
        unfold listeningItems at hq
        rcases List.mem_cons.mp hq with h2 | h2
        · rw [h2]; exact hpx
        · exact hpall q h2
    refine ⟨?_, ?_, ⟨r.1, ?_, hm_in, ?_, hmaxall, htie⟩, ?_, ?_, hfav0, hfav1⟩
    · rw [hstats]
    · intro k
      rw [hstats]
      exact hlook k
    · rw [hstats]
    · rw [hstats]
      show some r.2 = some (emos.count r.1)
      rw [hrv]
    · rw [hstats]
      show pyRound2 (((u.mood_history.foldl (fun t rr => t + rr.intensity) 0 : ℤ) : ℚ) /
          (u.mood_history.length : ℚ)) = _
      rw [foldl_intensity_eq_sum]
    · rw [hstats]

/-- C9 witness: a user with history happy, sad, happy and two morning
listens has 3 records, most common mood "happy", favorite time "morning",
and the distribution maps "sad" to 1. -/
theorem c9_mood_statistics_witness :
    (getMoodStatistics statsUser).total_records = 3 ∧
    (getMoodStatistics statsUser).most_common_mood = some "happy" ∧
    (getMoodStatistics statsUser).favorite_time = some "morning" ∧
    List.lookup "sad" (getMoodStatistics statsUser).mood_distribution = some 1 := by
  have h := (c9_mood_statistics statsUser).2 (by decide)
  refine ⟨h.1, by decide, ?_, ?_⟩
  · rw [h.2.2.2.2.1]
    decide
  · rw [h.2.1 "sad"]
    decide

end EMG
